import Mathlib

/-!
Verification of the Fieldbuddy HVAC calculation engine.

The two source modules (duct sizing / airflow splitting in `app.js`, and the
refrigerant diagnostics module) are shallowly embedded over `ℚ`:

* JS numbers are modelled as rationals; every input in scope is a finite
  double, and `isFinite` guards therefore reduce to the remaining numeric
  guards of each function.
* `Math.round` and `Number.prototype.toFixed` both round half toward +∞,
  modelled exactly by `jsRound`/`toFixed`.
* `Math.PI` is the exact rational value of the IEEE-754 double closest to π.
* Fallible results (`null` in JS) are `Option`; a thrown `TypeError`
  (dereferencing a `null` sizing result) is modelled by a distinguished
  `PlanResult.thrown` constructor.
* Display-only string fields of result records (suggestion texts, names,
  notes) are omitted: they are pure formatting of the numeric fields kept
  here, and no property concerns them.  Advisory messages of the health
  evaluator are kept as an inductive type with one constructor per literal
  message string of the source.
-/

namespace FieldBuddy

/-- JS `Math.round` (and `toFixed(0)`): round half toward +∞, `⌊x + 1/2⌋`. -/
def jsRound (q : ℚ) : ℤ := ⌊q + 1/2⌋

/-- JS `x.toFixed(n)` (re-read as a number): round `x·10^n` half toward +∞
and scale back. -/
def toFixed (n : ℕ) (q : ℚ) : ℚ := (jsRound (q * 10 ^ n) : ℚ) / 10 ^ n

/-- JS `array.reduce((a, b) => a + b, 0)`: a left fold. -/
def jsSum (l : List ℚ) : ℚ := l.foldl (· + ·) 0

/-! ### JS string case mapping

The engine compares enumerant strings after `toUpperCase`/`toLowerCase`.
All enumerants are ASCII, so the ASCII case mapping (applied per character
over the string's character data) models the JS behaviour exactly on every
input the engine compares against. -/

/-- ASCII `toLowerCase` of one character. -/
def jsCharLower (c : Char) : Char :=
  if 65 ≤ c.toNat ∧ c.toNat ≤ 90 then Char.ofNat (c.toNat + 32) else c

/-- ASCII `toUpperCase` of one character. -/
def jsCharUpper (c : Char) : Char :=
  if 97 ≤ c.toNat ∧ c.toNat ≤ 122 then Char.ofNat (c.toNat - 32) else c

/-- JS `String.prototype.toLowerCase` (ASCII fragment). -/
def jsToLower (s : String) : String := ⟨s.data.map jsCharLower⟩

/-- JS `String.prototype.toUpperCase` (ASCII fragment). -/
def jsToUpper (s : String) : String := ⟨s.data.map jsCharUpper⟩

/-! ### Refrigerant diagnostics: PT tables and interpolation -/

/-- `PT_TABLES.R410A` from the source: ascending `(PSIG, °F)` pairs. -/
def PT_R410A : List (ℚ × ℚ) :=
  [(90, 26), (110, 33), (130, 39), (150, 45), (170, 50), (190, 55),
   (210, 60), (230, 64), (250, 68), (275, 73), (300, 77), (325, 81), (350, 85)]

/-- `PT_TABLES.R22` from the source. -/
def PT_R22 : List (ℚ × ℚ) :=
  [(50, 28), (60, 33), (70, 38), (80, 42), (90, 46), (100, 50),
   (110, 54), (120, 57), (130, 60), (150, 66), (170, 71), (190, 76)]

/-- `PT_TABLES.R454B` from the source. -/
def PT_R454B : List (ℚ × ℚ) :=
  [(90, 22), (110, 29), (130, 35), (150, 41), (170, 46), (190, 51),
   (210, 56), (230, 60), (250, 64), (275, 69), (300, 73), (325, 77)]

/-- `PT_TABLES.R32` from the source. -/
def PT_R32 : List (ℚ × ℚ) :=
  [(90, 16), (110, 22), (130, 28), (150, 33), (170, 38), (190, 43),
   (210, 47), (230, 51), (250, 55), (275, 60), (300, 64), (325, 67)]

/-- Ordering of two table points by pressure (strictly ascending), the
shape of every built-in PT table. -/
def presLT (a b : ℚ × ℚ) : Prop := a.1 < b.1

/-- Ordering of two table points by temperature (nondecreasing), also
satisfied by every built-in PT table. -/
def tempsLE (a b : ℚ × ℚ) : Prop := a.2 ≤ b.2

/-- The linear-interpolation formula `f1 + (p - p1)/(p2 - p1) * (f2 - f1)`
from the loop body of `interpolatePT`. -/
def lerp (p : ℚ) (a b : ℚ × ℚ) : ℚ := a.2 + (p - a.1) / (b.1 - a.1) * (b.2 - a.2)

/-- The bracket-search loop of `interpolatePT`: try each consecutive pair
`(p1,f1),(p2,f2)` in order; on `p1 ≤ p ≤ p2` return the interpolated value. -/
def scanPT (p : ℚ) : List (ℚ × ℚ) → Option ℚ
  | a :: b :: rest => if a.1 ≤ p ∧ p ≤ b.1 then some (lerp p a b) else scanPT p (b :: rest)
  | _ => none

/-- `interpolatePT(psig, table)` from the source: clamp below the first and
above the last tabulated pressure, else search for the bracketing pair
(falling back to the first entry's temperature, which the loop cannot miss
on the ascending built-in tables).  The `[]` case is junk (the JS would read
`undefined`); every built-in table is nonempty. -/
def interpolatePT (p : ℚ) (t : List (ℚ × ℚ)) : ℚ :=
  match t with
  | [] => 0
  | a :: rest =>
      if p ≤ a.1 then a.2
      else if (rest.getLastD a).1 ≤ p then (rest.getLastD a).2
      else (scanPT p (a :: rest)).getD a.2

/-- The `PT_TABLES[ref] || PT_TABLES['R410A']` lookup: unknown refrigerant
codes fall back to the R-410A table. -/
def ptTableFor (ref : String) : List (ℚ × ℚ) :=
  if ref = "R410A" then PT_R410A
  else if ref = "R22" then PT_R22
  else if ref = "R454B" then PT_R454B
  else if ref = "R32" then PT_R32
  else PT_R410A

/-- `psigToSaturationTemp(psig, refrigerant)` from the source: uppercase the
code (empty string falls back to `'R410A'` via `||`), look up the table,
interpolate, round to 1 decimal. -/
def psigToSaturationTemp (psig : ℚ) (refrigerant : String) : ℚ :=
  toFixed 1 (interpolatePT psig (ptTableFor (jsToUpper (if refrigerant = "" then "R410A" else refrigerant))))

/-! ### Health evaluation -/

/-- Advisory severity: `'ok'` or `'warn'` in the source. -/
inductive Level where
  | ok : Level
  | warn : Level
deriving DecidableEq

/-- One constructor per literal advisory string pushed by
`evaluateCoolingHealth`, carrying the interpolated metric value. -/
inductive HealthMessage where
  | lowDeltaT (v : ℚ) : HealthMessage
  | highDeltaT (v : ℚ) : HealthMessage
  | okDeltaT (v : ℚ) : HealthMessage
  | lowSubcoolTxv (v : ℚ) : HealthMessage
  | highSubcoolTxv (v : ℚ) : HealthMessage
  | okSubcoolTxv (v : ℚ) : HealthMessage
  | lowSuperheatTxv (v : ℚ) : HealthMessage
  | highSuperheatTxv (v : ℚ) : HealthMessage
  | okSuperheatTxv (v : ℚ) : HealthMessage
  | lowSuperheatFixed (v : ℚ) : HealthMessage
  | highSuperheatFixed (v : ℚ) : HealthMessage
  | okSuperheatFixed (v : ℚ) : HealthMessage
  | lowSubcoolFixed (v : ℚ) : HealthMessage
  | highSubcoolFixed (v : ℚ) : HealthMessage
  | okSubcoolFixed (v : ℚ) : HealthMessage
deriving DecidableEq

/-- The `level` field attached to each message in the source. -/
def HealthMessage.level : HealthMessage → Level
  | .okDeltaT _ => .ok
  | .okSubcoolTxv _ => .ok
  | .okSuperheatTxv _ => .ok
  | .okSuperheatFixed _ => .ok
  | .okSubcoolFixed _ => .ok
  | _ => .warn

/-- `evaluateCoolingHealth({deltaT, superheat, subcool, meteringDevice})`.
Absent or non-finite metrics are `none` (the `isFinite` guards).  The
metering device is TXV exactly when the lowercased string is `"txv"`
(the `||` makes the empty string default to `'txv'`). -/
def evaluateCoolingHealth (deltaT superheat subcool : Option ℚ)
    (meteringDevice : String) : List HealthMessage :=
  let txv := jsToLower (if meteringDevice = "" then "txv" else meteringDevice) = "txv"
  let deltaTMsgs : List HealthMessage :=
    match deltaT with
    | none => []
    | some d =>
        if d < 14 then [.lowDeltaT d]
        else if 24 < d then [.highDeltaT d]
        else [.okDeltaT d]
  let deviceMsgs : List HealthMessage :=
    if txv then
      (match subcool with
       | none => []
       | some s =>
           if s < 6 then [.lowSubcoolTxv s]
           else if 14 < s then [.highSubcoolTxv s]
           else [.okSubcoolTxv s]) ++
      (match superheat with
       | none => []
       | some s =>
           if s < 5 then [.lowSuperheatTxv s]
           else if 20 < s then [.highSuperheatTxv s]
           else [.okSuperheatTxv s])
    else
      (match superheat with
       | none => []
       | some s =>
           if s < 8 then [.lowSuperheatFixed s]
           else if 25 < s then [.highSuperheatFixed s]
           else [.okSuperheatFixed s]) ++
      (match subcool with
       | none => []
       | some s =>
           if s < 5 then [.lowSubcoolFixed s]
           else if 15 < s then [.highSubcoolFixed s]
           else [.okSubcoolFixed s])
  deltaTMsgs ++ deviceMsgs

/-! ### Friction rate -/

/-- `frictionRateQuick(totalESP, eql, drops)` from `app.js`:
`((totalESP - drops) / eql) * 100` to 3 decimals, `null` when `eql <= 0`
(or inputs non-finite, which has no rational inhabitant). -/
def frictionRateQuick (totalESP eql drops : ℚ) : Option ℚ :=
  if eql ≤ 0 then none
  else some (toFixed 3 ((totalESP - drops) / eql * 100))

/-! ### Duct sizing: core math -/

/-- `Math.PI`, the exact rational value of the IEEE-754 double nearest π. -/
def PI : ℚ := 884279719003555 / 281474976710656

/-- `areaRound(diaIn)`: `π·r²` with `r = (d/2)/12` feet. -/
def areaRound (diaIn : ℚ) : ℚ := PI * ((diaIn / 2) / 12) * ((diaIn / 2) / 12)

/-- `areaRect(wIn, hIn)`: `(w/12)·(h/12)` square feet. -/
def areaRect (wIn hIn : ℚ) : ℚ := (wIn / 12) * (hIn / 12)

/-- `velocity(cfm, areaFt2)`: `cfm/area` rounded to an integer, `null` when
`area <= 0` (or an input non-finite, with no rational inhabitant). -/
def velocity (cfm areaFt2 : ℚ) : Option ℤ :=
  if areaFt2 ≤ 0 then none else some (jsRound (cfm / areaFt2))

/-! ### CFM splitting -/

/-- The `ratiosOrCount` parameter of `splitCFM`: either an array of ratios
or an integer count (a non-integer numeric count behaves like `count n`
with `n ≤ 0`: both branch guards fail and the parts stay empty). -/
inductive RatiosOrCount where
  | ratios : List ℚ → RatiosOrCount
  | count : ℤ → RatiosOrCount

/-- The branch of `splitCFM` that computes the raw (pre-normalization)
parts: ratios are normalized by their sum (defaulted to 1 when zero) and
rounded independently; a positive integer count floor-divides with the
remainder spread over the first `rem` indices. -/
def rawParts (totalCFM : ℚ) : RatiosOrCount → List ℚ
  | .ratios rs =>
      let s := if jsSum rs = 0 then 1 else jsSum rs
      rs.map fun r => (jsRound (r / s * totalCFM) : ℚ)
  | .count n =>
      if 0 < n then
        (List.range n.toNat).map fun (i : ℕ) =>
          (⌊totalCFM / (n : ℚ)⌋ : ℚ) +
            if (i : ℚ) < totalCFM - (⌊totalCFM / (n : ℚ)⌋ : ℚ) * (n : ℚ) then 1 else 0
      else []

/-- The "normalize rounding errors" step of `splitCFM`: add
`totalCFM - sum(parts)` to the first part when nonzero and the list is
nonempty. -/
def fixParts (totalCFM : ℚ) : List ℚ → List ℚ
  | [] => []
  | p :: rest =>
      if totalCFM - jsSum (p :: rest) = 0 then p :: rest
      else (p + (totalCFM - jsSum (p :: rest))) :: rest

/-- `splitCFM(totalCFM, ratiosOrCount)` from `app.js`. -/
def splitCFM (totalCFM : ℚ) (roc : RatiosOrCount) : List ℚ :=
  if totalCFM ≤ 0 then [] else fixParts totalCFM (rawParts totalCFM roc)

/-! ### Round duct sizing

`sizeRoundDuct` back-solves `d = sqrt(area·144·4/π)` and rounds it with
`Math.round` (half toward +∞).  The composition of real square root and
JS rounding is computed exactly over ℚ through the integer floor of the
square root:

* `⌊√q⌋ = Nat.sqrt ⌊q⌋` for `q ≥ 0` (both characterize the greatest `k`
  with `k² ≤ q`);
* `Math.round(√q) = ⌊√q + 1/2⌋ = ⌊(⌊√(4q)⌋ + 1)/2⌋`, because
  `(√q + 1/2)` crosses the integer `k` exactly when `√(4q)` crosses the
  integer `2k - 1`;
* `Math.round(√q/2)·2 = 2·⌊(⌊√q⌋ + 1)/2⌋`, because `(√q/2 + 1/2)` crosses
  the integer `k` exactly when `√q` crosses the integer `2k - 1`. -/

/-- `⌊√q⌋` for `q ≥ 0` (junk 0 for negative `q`, which the callers guard). -/
def floorSqrtQ (q : ℚ) : ℕ := Nat.sqrt ⌊q⌋.toNat

/-- `Math.round(Math.sqrt(q))` computed exactly. -/
def jsRoundSqrt (q : ℚ) : ℕ := (floorSqrtQ (4 * q) + 1) / 2

/-- `Math.round(Math.sqrt(q) / 2) * 2` computed exactly. -/
def jsRoundHalfSqrtTimesTwo (q : ℚ) : ℕ := 2 * ((floorSqrtQ q + 1) / 2)

/-- The `{ dia, fpm, areaFt2 }` record returned by `sizeRoundDuct`
(`fpm` is `null` when `velocity` fails). -/
structure DuctSize where
  dia : ℚ
  fpm : Option ℤ
  areaFt2 : ℚ
deriving DecidableEq

/-- `sizeRoundDuct(cfm, targetFPM, minDia, maxDia, even)` from `app.js`. -/
def sizeRoundDuct (cfm targetFPM minDia maxDia : ℚ) (even : Bool) : Option DuctSize :=
  if cfm ≤ 0 then none
  else
    let q := cfm / targetFPM * 144 * 4 / PI
    let dia0 : ℚ := if even then (jsRoundHalfSqrtTimesTwo q : ℚ) else (jsRoundSqrt q : ℚ)
    let dia := max minDia (min maxDia dia0)
    some { dia := dia, fpm := velocity cfm (areaRound dia), areaFt2 := toFixed 3 (areaRound dia) }

/-! ### Returns and plan generation -/

/-- One entry of `returnSizing`'s ranked grille list (the display-only
`note` string is omitted). -/
structure GrilleOption where
  w : ℚ
  h : ℚ
  fpm : Option ℤ
  faceAreaFt2 : ℚ
deriving DecidableEq

/-- The fixed catalog `[[20,25],[24,24],[16,25],[14,30],[12,36]]`. -/
def RETURN_GRILLES : List (ℚ × ℚ) := [(20, 25), (24, 24), (16, 25), (14, 30), (12, 36)]

/-- Result of `returnSizing` (minus the display-only note string). -/
structure ReturnSizingResult where
  areaFt2 : ℚ
  grilleSizes : List GrilleOption
deriving DecidableEq

/-- Sort key of the grille ranking: `Math.abs(maxFaceVel - fpm)`
(JS coerces a `null` fpm to 0). -/
def grilleKey (maxFaceVel : ℚ) (g : GrilleOption) : ℚ :=
  |maxFaceVel - ((g.fpm.getD 0 : ℤ) : ℚ)|

/-- `returnSizing(totalCFM, maxFaceVel)` from `app.js`: target face area,
plus the grille catalog ranked by closeness to the target velocity
(JS `Array.prototype.sort` is stable, as is `List.mergeSort`). -/
def returnSizing (totalCFM maxFaceVel : ℚ) : Option ReturnSizingResult :=
  if totalCFM ≤ 0 then none
  else
    let options := RETURN_GRILLES.map fun wh =>
      { w := wh.1, h := wh.2, fpm := velocity totalCFM (areaRect wh.1 wh.2),
        faceAreaFt2 := toFixed 3 (areaRect wh.1 wh.2) : GrilleOption }
    some { areaFt2 := toFixed 3 (totalCFM / maxFaceVel),
           grilleSizes := options.mergeSort fun a b =>
             decide (grilleKey maxFaceVel a ≤ grilleKey maxFaceVel b) }

/-- One branch record of a sub-plenum (name and suggestion strings, pure
formatting of these fields, are omitted). -/
structure BranchPlan where
  cfm : ℚ
  dia : ℚ
  fpm : Option ℤ
deriving DecidableEq

/-- One sub-plenum of the generated plan. -/
structure SubPlenum where
  cfm : ℚ
  trunkDia : ℚ
  trunkFpm : Option ℤ
  branches : List BranchPlan
deriving DecidableEq

/-- The `SubPlenumPlan` structure assembled by `generateSubPlenumPlan`. -/
structure SubPlenumPlan where
  totalCFM : ℚ
  trunkFPM : ℚ
  branchFPM : ℚ
  subPlenums : List SubPlenum
  returns : Option ReturnSizingResult
deriving DecidableEq

/-- Outcome of a `generateSubPlenumPlan` call: a plan, the `null` early
return, or a thrown `TypeError` (the JS dereferences the result of
`sizeRoundDuct` without a null check). -/
inductive PlanResult where
  | plan : SubPlenumPlan → PlanResult
  | nullResult : PlanResult
  | thrown : PlanResult
deriving DecidableEq

/-- Option-sequencing of a list map, mirroring the `.map` callbacks inside
`generateSubPlenumPlan`: the first `null` dereference aborts the whole
call (modelled by `none`). -/
def mapMOpt {α β : Type} (f : α → Option β) : List α → Option (List β)
  | [] => some []
  | a :: l =>
      match f a, mapMOpt f l with
      | some b, some bs => some (b :: bs)
      | _, _ => none

/-- The per-branch callback: `sizeRoundDuct(q, branchFPM, 6, 16, true)`,
then `pick.dia`/`pick.fpm` are read (throwing when `pick` is null). -/
def buildBranch (branchFPM q : ℚ) : Option BranchPlan :=
  match sizeRoundDuct q branchFPM 6 16 true with
  | none => none
  | some pick => some { cfm := q, dia := pick.dia, fpm := pick.fpm }

/-- The per-sub-plenum callback of `generateSubPlenumPlan`: size the trunk
at 8–24 in, split the sub-plenum CFM into the fixed 5 branches, size each
branch at 6–16 in. -/
def buildSub (trunkFPM branchFPM cfmSub : ℚ) : Option SubPlenum :=
  match sizeRoundDuct cfmSub trunkFPM 8 24 true with
  | none => none
  | some trunk =>
      match mapMOpt (buildBranch branchFPM) (splitCFM cfmSub (.count 5)) with
      | none => none
      | some branches =>
          some { cfm := cfmSub, trunkDia := trunk.dia, trunkFpm := trunk.fpm,
                 branches := branches }

/-- `generateSubPlenumPlan(totalCFM, split, trunkFPM, branchFPM)` from
`app.js`: round the total, return `null` when it is `<= 0`, split it,
build every sub-plenum (possibly throwing), and attach the returns
guidance at a fixed 450 FPM face velocity. -/
def generateSubPlenumPlan (totalCFM : ℚ) (split : RatiosOrCount)
    (trunkFPM branchFPM : ℚ) : PlanResult :=
  if (jsRound totalCFM : ℚ) ≤ 0 then .nullResult
  else
    match mapMOpt (buildSub trunkFPM branchFPM) (splitCFM (jsRound totalCFM : ℚ) split) with
    | none => .thrown
    | some subs =>
        .plan { totalCFM := (jsRound totalCFM : ℚ), trunkFPM := trunkFPM,
                branchFPM := branchFPM, subPlenums := subs,
                returns := returnSizing (jsRound totalCFM : ℚ) 450 }

/-- Projection used to state plan properties without forcing the rest of
the record. -/
def planSubPlenums : PlanResult → Option (List SubPlenum)
  | .plan p => some p.subPlenums
  | _ => none

/-- Sum of the sub-plenum CFM values of a plan. -/
def subCFMSum (p : SubPlenumPlan) : ℚ := jsSum (p.subPlenums.map (·.cfm))

/-- Sum of the branch CFM values of one sub-plenum. -/
def branchCFMSum (sp : SubPlenum) : ℚ := jsSum (sp.branches.map (·.cfm))

/-- Conservation check on a plan result: a returned plan's sub-plenum CFMs
sum to its total, and each sub-plenum's branch CFMs sum to its CFM
(vacuously true for `null`/thrown outcomes). -/
def planConserves (r : PlanResult) : Bool :=
  match r with
  | .plan p =>
      decide (subCFMSum p = p.totalCFM) &&
        p.subPlenums.all fun sp => decide (branchCFMSum sp = sp.cfm)
  | _ => true

/-- Nonempty-split condition: a nonempty ratio list or a positive count. -/
def nonemptySplit : RatiosOrCount → Bool
  | .ratios rs => !rs.isEmpty
  | .count n => decide (0 < n)

/-! ## Lemmas about the embedding -/

theorem foldl_add_shift (l : List ℚ) : ∀ a : ℚ, l.foldl (· + ·) a = a + l.foldl (· + ·) 0 := by
  induction l with
  | nil => intro a; simp
  | cons b l ih => intro a; simp only [List.foldl_cons]; rw [ih (a + b), ih (0 + b)]; ring

theorem jsSum_nil : jsSum [] = 0 := rfl

theorem jsSum_cons (a : ℚ) (l : List ℚ) : jsSum (a :: l) = a + jsSum l := by
  simp only [jsSum, List.foldl_cons]
  rw [foldl_add_shift l (0 + a)]
  ring

theorem jsSum_append (l₁ l₂ : List ℚ) : jsSum (l₁ ++ l₂) = jsSum l₁ + jsSum l₂ := by
  induction l₁ with
  | nil => simp [jsSum_nil, jsSum]
  | cons a l ih => simp only [List.cons_append, jsSum_cons, ih]; ring

theorem jsRound_le_jsRound {p q : ℚ} (h : p ≤ q) : jsRound p ≤ jsRound q :=
  Int.floor_le_floor (by linarith)

theorem toFixed_le_toFixed (n : ℕ) {p q : ℚ} (h : p ≤ q) : toFixed n p ≤ toFixed n q := by
  have h10 : (0 : ℚ) < 10 ^ n := by positivity
  have : jsRound (p * 10 ^ n) ≤ jsRound (q * 10 ^ n) :=
    jsRound_le_jsRound (by nlinarith)
  exact div_le_div_of_nonneg_right (by exact_mod_cast this) h10.le

theorem fixParts_sum (t : ℚ) (parts : List ℚ) (h : parts ≠ []) :
    jsSum (fixParts t parts) = t := by
  match parts with
  | [] => exact absurd rfl h
  | p :: rest =>
      simp only [fixParts]
      by_cases hd : t - jsSum (p :: rest) = 0
      · rw [if_pos hd]; rw [jsSum_cons] at *; linarith
      · rw [if_neg hd, jsSum_cons]; rw [jsSum_cons] at hd ⊢; ring

theorem fixParts_of_sum {t : ℚ} {parts : List ℚ} (h : jsSum parts = t) :
    fixParts t parts = parts := by
  match parts with
  | [] => rfl
  | p :: rest => simp only [fixParts]; rw [if_pos (by rw [h]; ring)]

theorem fixParts_ne_nil {t : ℚ} {parts : List ℚ} (h : parts ≠ []) :
    fixParts t parts ≠ [] := by
  match parts with
  | [] => exact absurd rfl h
  | p :: rest =>
      simp only [fixParts]
      by_cases hd : t - jsSum (p :: rest) = 0
      · rw [if_pos hd]; exact List.cons_ne_nil _ _
      · rw [if_neg hd]; exact List.cons_ne_nil _ _

theorem splitCFM_sum {t : ℚ} (ht : 0 < t) (roc : RatiosOrCount)
    (h : splitCFM t roc ≠ []) : jsSum (splitCFM t roc) = t := by
  unfold splitCFM at *
  rw [if_neg (not_le.mpr ht)] at *
  apply fixParts_sum
  intro hnil
  rw [hnil] at h
  exact h rfl

theorem floor_natCast_div (N k : ℕ) (hk : 0 < k) :
    ⌊(N : ℚ) / (k : ℚ)⌋ = ((N / k : ℕ) : ℤ) := by
  have hk' : (0 : ℚ) < (k : ℚ) := by exact_mod_cast hk
  rw [Int.floor_eq_iff]
  constructor
  · rw [le_div_iff₀ hk']
    exact_mod_cast Nat.div_mul_le_self N k
  · rw [div_lt_iff₀ hk']
    have hdm : k * (N / k) + N % k = N := Nat.div_add_mod N k
    have hmod : N % k < k := Nat.mod_lt N hk
    have h2 : N < (N / k + 1) * k := by
      rw [Nat.add_mul, one_mul, Nat.mul_comm] at *
      linarith
    exact_mod_cast h2

theorem rawParts_count_eq (N k : ℕ) (hk : 0 < k) :
    rawParts (N : ℚ) (.count (k : ℤ)) =
      (List.range k).map fun i =>
        ((N / k : ℕ) : ℚ) + if i < N % k then 1 else 0 := by
  have hk' : (0 : ℤ) < (k : ℤ) := by exact_mod_cast hk
  have hfloor : ⌊(N : ℚ) / ((k : ℤ) : ℚ)⌋ = ((N / k : ℕ) : ℤ) := by
    rw [Int.cast_natCast]; exact floor_natCast_div N k hk
  have hrem : (N : ℚ) - (((N / k : ℕ) : ℤ) : ℚ) * ((k : ℤ) : ℚ) = ((N % k : ℕ) : ℚ) := by
    have hdm : k * (N / k) + N % k = N := Nat.div_add_mod N k
    have hc : ((k : ℚ)) * ((N / k : ℕ) : ℚ) + ((N % k : ℕ) : ℚ) = (N : ℚ) := by
      exact_mod_cast hdm
    rw [Int.cast_natCast, Int.cast_natCast]
    linarith
  simp only [rawParts]
  rw [if_pos hk']
  simp only [hfloor, hrem, Int.toNat_natCast]
  refine List.map_congr_left fun i _ => ?_
  simp only [Int.cast_natCast, Nat.cast_lt]

theorem jsSum_range_base_ite (base : ℚ) (r : ℕ) :
    ∀ k : ℕ, jsSum ((List.range k).map fun i => base + if i < r then 1 else 0)
      = k * base + (min k r : ℕ) := by
  intro k
  induction k with
  | zero => simp [jsSum_nil]
  | succ k ih =>
      rw [List.range_succ, List.map_append, jsSum_append, ih]
      simp only [List.map_cons, List.map_nil, jsSum_cons, jsSum_nil]
      by_cases h : k < r
      · rw [if_pos h, min_eq_left h.le, min_eq_left (Nat.succ_le_of_lt h)]
        push_cast
        ring
      · rw [if_neg h, min_eq_right (Nat.le_of_not_lt h),
          min_eq_right (le_trans (Nat.le_of_not_lt h) (Nat.le_succ k))]
        push_cast
        ring

theorem rawParts_count_sum (N k : ℕ) (hk : 0 < k) :
    jsSum (rawParts (N : ℚ) (.count (k : ℤ))) = (N : ℚ) := by
  rw [rawParts_count_eq N k hk, jsSum_range_base_ite,
    min_eq_right (Nat.mod_lt N hk).le]
  have hdm : k * (N / k) + N % k = N := Nat.div_add_mod N k
  exact_mod_cast hdm

/-! ## Claim theorems -/

/-- Claim C1: for every positive integer `totalCFM` and every ratio
sequence summing to a positive number, the parts of
`splitCFM(totalCFM, ratios)` sum to exactly `totalCFM`; the rounding
difference is added to the first raw rounded part, and all later parts are
the raw rounded parts unchanged. -/
theorem splitCFM_ratios_invariant (n : ℕ) (hn : 0 < n) (rs : List ℚ)
    (hs : 0 < jsSum rs) :
    jsSum (splitCFM (n : ℚ) (.ratios rs)) = (n : ℚ) ∧
    (splitCFM (n : ℚ) (.ratios rs)).tail = (rawParts (n : ℚ) (.ratios rs)).tail ∧
    (splitCFM (n : ℚ) (.ratios rs)).head? =
      (rawParts (n : ℚ) (.ratios rs)).head?.map
        fun p => p + ((n : ℚ) - jsSum (rawParts (n : ℚ) (.ratios rs))) := by
  have hn' : ¬((n : ℚ) ≤ 0) := by rw [not_le]; exact_mod_cast hn
  have hrs : rs ≠ [] := by
    intro h; rw [h, jsSum_nil] at hs; exact lt_irrefl 0 hs
  have hraw : rawParts (n : ℚ) (.ratios rs) ≠ [] := by
    simp only [rawParts]
    intro h
    exact hrs (List.map_eq_nil_iff.mp h)
  unfold splitCFM
  rw [if_neg hn']
  obtain ⟨p, rest, hpr⟩ := List.exists_cons_of_ne_nil hraw
  refine ⟨fixParts_sum _ _ hraw, ?_, ?_⟩
  · rw [hpr]
    simp only [fixParts]
    by_cases hd : (n : ℚ) - jsSum (p :: rest) = 0
    · rw [if_pos hd]
    · rw [if_neg hd, List.tail_cons, List.tail_cons]
  · rw [hpr]
    simp only [fixParts]
    by_cases hd : (n : ℚ) - jsSum (p :: rest) = 0
    · rw [if_pos hd]
      simp only [List.head?_cons, Option.map_some']
      rw [hd, add_zero]
    · rw [if_neg hd]
      simp only [List.head?_cons, Option.map_some']

/-- Claim C1 witness: at `totalCFM = 100` with the default ratio list
`[0.4, 0.35, 0.25]`, the parts sum to 100. -/
theorem splitCFM_ratios_invariant_witness :
    jsSum (splitCFM ((100 : ℕ) : ℚ) (.ratios [2/5, 7/20, 1/4])) = ((100 : ℕ) : ℚ) :=
  (splitCFM_ratios_invariant 100 (by norm_num) [2/5, 7/20, 1/4]
    (by norm_num [jsSum])).1

/-- Claim C7: for positive integers `totalCFM = N` and `count = k`,
`splitCFM(N, k)` is exactly the floor-division split with the remainder
given to the first `N % k` parts: `k` parts, each `⌊N/k⌋` or `⌊N/k⌋ + 1`,
summing to `N`. -/
theorem splitCFM_count_invariant (N k : ℕ) (hN : 0 < N) (hk : 0 < k) :
    splitCFM (N : ℚ) (.count (k : ℤ)) =
        ((List.range k).map fun i => ((N / k : ℕ) : ℚ) + if i < N % k then 1 else 0) ∧
    jsSum (splitCFM (N : ℚ) (.count (k : ℤ))) = (N : ℚ) ∧
    (splitCFM (N : ℚ) (.count (k : ℤ))).length = k ∧
    ∀ x ∈ splitCFM (N : ℚ) (.count (k : ℤ)),
      x = ((N / k : ℕ) : ℚ) ∨ x = ((N / k : ℕ) : ℚ) + 1 := by
  have hN' : ¬((N : ℚ) ≤ 0) := by rw [not_le]; exact_mod_cast hN
  have hsum := rawParts_count_sum N k hk
  have heq : splitCFM (N : ℚ) (.count (k : ℤ)) = rawParts (N : ℚ) (.count (k : ℤ)) := by
    unfold splitCFM; rw [if_neg hN', fixParts_of_sum hsum]
  refine ⟨by rw [heq, rawParts_count_eq N k hk], by rw [heq]; exact hsum, ?_, ?_⟩
  · rw [heq, rawParts_count_eq N k hk]
    simp
  · intro x hx
    rw [heq, rawParts_count_eq N k hk] at hx
    rcases List.mem_map.mp hx with ⟨i, _, rfl⟩
    by_cases h : i < N % k
    · right; rw [if_pos h]
    · left; rw [if_neg h, add_zero]

/-- Claim C7 witness: `splitCFM(100, 3) = [34, 33, 33]`. -/
theorem splitCFM_count_invariant_witness :
    splitCFM ((100 : ℕ) : ℚ) (.count ((3 : ℕ) : ℤ)) = [34, 33, 33] := by
  rw [(splitCFM_count_invariant 100 3 (by norm_num) (by norm_num)).1]
  norm_num [List.range_succ]

/-- Claim C8: `frictionRateQuick` is the 3-decimal rounding of
`((totalESP - drops) / eql) * 100` whenever `eql > 0`, is `null` when
`eql ≤ 0`, and is not clamped at zero: `frictionRateQuick(0.3, 150, 0.5)`
is the negative value `-0.133`. -/
theorem frictionRateQuick_spec :
    (∀ totalESP eql drops : ℚ, 0 < eql →
        frictionRateQuick totalESP eql drops =
          some (toFixed 3 ((totalESP - drops) / eql * 100))) ∧
    (∀ totalESP eql drops : ℚ, eql ≤ 0 → frictionRateQuick totalESP eql drops = none) ∧
    frictionRateQuick (3/10) 150 (1/2) = some (-(133/1000)) ∧
    (-(133/1000) : ℚ) < 0 := by
  refine ⟨fun a b c h => ?_, fun a b c h => ?_, ?_, by norm_num⟩
  · unfold frictionRateQuick; rw [if_neg (not_le.mpr h)]
  · unfold frictionRateQuick; rw [if_pos h]
  · unfold frictionRateQuick
    rw [if_neg (by norm_num)]
    norm_num [toFixed, jsRound]

/-- Claim C8 witness: the formula case applied at `(0.3, 150, 0.5)`. -/
theorem frictionRateQuick_spec_witness :
    frictionRateQuick (3/10) 150 (1/2) =
      some (toFixed 3 ((3/10 - 1/2) / 150 * 100)) :=
  frictionRateQuick_spec.1 (3/10) 150 (1/2) (by norm_num)

/-- Claim C9: `evaluateCoolingHealth({deltaT: 14, meteringDevice: 'txv'})`
reports the ok delta-T message: the warn conditions are `deltaT < 14` and
`deltaT > 24`, so 14 is the inclusive lower boundary of the ok range. -/
theorem evaluateCoolingHealth_deltaT_boundary :
    evaluateCoolingHealth (some 14) none none "txv" = [.okDeltaT 14] ∧
    HealthMessage.level (.okDeltaT 14) = .ok ∧
    ∀ d : ℚ, evaluateCoolingHealth (some d) none none "txv" =
      [if d < 14 then .lowDeltaT d else if 24 < d then .highDeltaT d else .okDeltaT d] := by
  refine ⟨?_, rfl, fun d => ?_⟩
  · simp only [evaluateCoolingHealth]
    rw [if_pos (by decide : jsToLower (if ("txv" : String) = "" then "txv" else "txv") = "txv")]
    norm_num
  · simp only [evaluateCoolingHealth]
    rw [if_pos (by decide : jsToLower (if ("txv" : String) = "" then "txv" else "txv") = "txv")]
    split_ifs <;> simp

/-- Claim C3 counterexample: a superheat of 9°F is not below the
fixed-orifice ok floor (the warn condition is `superheat < 8`): both device
paths report an ok-level superheat message at 9°F, so they do not diverge
there. -/
theorem superheat_nine_no_divergence :
    evaluateCoolingHealth none (some 9) none "orifice" = [.okSuperheatFixed 9] ∧
    HealthMessage.level (.okSuperheatFixed 9) = .ok ∧
    evaluateCoolingHealth none (some 9) none "txv" = [.okSuperheatTxv 9] ∧
    HealthMessage.level (.okSuperheatTxv 9) = .ok := by
  refine ⟨?_, rfl, ?_, rfl⟩
  · simp only [evaluateCoolingHealth]
    rw [if_neg (by decide :
      ¬jsToLower (if ("orifice" : String) = "" then "txv" else "orifice") = "txv")]
    norm_num
  · simp only [evaluateCoolingHealth]
    rw [if_pos (by decide : jsToLower (if ("txv" : String) = "" then "txv" else "txv") = "txv")]
    norm_num

/-- Claim C3 amended: the TXV and fixed-orifice paths diverge on superheat
values in `[5, 8)` — at 7°F the TXV path reports ok while the fixed-orifice
path warns (low superheat / overcharge or low airflow); at 9°F both report
ok. -/
theorem superheat_divergence_amended :
    evaluateCoolingHealth none (some 7) none "txv" = [.okSuperheatTxv 7] ∧
    HealthMessage.level (.okSuperheatTxv 7) = .ok ∧
    evaluateCoolingHealth none (some 7) none "orifice" = [.lowSuperheatFixed 7] ∧
    HealthMessage.level (.lowSuperheatFixed 7) = .warn := by
  refine ⟨?_, rfl, ?_, rfl⟩
  · simp only [evaluateCoolingHealth]
    rw [if_pos (by decide : jsToLower (if ("txv" : String) = "" then "txv" else "txv") = "txv")]
    norm_num
  · simp only [evaluateCoolingHealth]
    rw [if_neg (by decide :
      ¬jsToLower (if ("orifice" : String) = "" then "txv" else "orifice") = "txv")]
    norm_num

theorem mapMOpt_map_eq {α β : Type} (f : α → Option β) (g : β → α)
    (hf : ∀ x y, f x = some y → g y = x) :
    ∀ (l : List α) (out : List β), mapMOpt f l = some out → out.map g = l := by
  intro l
  induction l with
  | nil =>
      intro out h
      simp only [mapMOpt, Option.some.injEq] at h
      rw [← h]
      rfl
  | cons a l ih =>
      intro out h
      simp only [mapMOpt] at h
      split at h
      · rename_i b bs hfa hbs
        rw [Option.some.injEq] at h
        subst h
        simp only [List.map_cons]
        rw [hf a b hfa, ih bs hbs]
      · exact Option.noConfusion h

theorem mapMOpt_mem {α β : Type} (f : α → Option β) :
    ∀ (l : List α) (out : List β), mapMOpt f l = some out →
      ∀ y ∈ out, ∃ x ∈ l, f x = some y := by
  intro l
  induction l with
  | nil =>
      intro out h y hy
      simp only [mapMOpt, Option.some.injEq] at h
      subst h
      exact absurd hy (List.not_mem_nil y)
  | cons a l ih =>
      intro out h y hy
      simp only [mapMOpt] at h
      split at h
      · rename_i b bs hfa hbs
        rw [Option.some.injEq] at h
        subst h
        rcases List.mem_cons.mp hy with rfl | hmem
        · exact ⟨a, List.mem_cons_self a l, hfa⟩
        · obtain ⟨x, hx, hfx⟩ := ih bs hbs y hmem
          exact ⟨x, List.mem_cons_of_mem a hx, hfx⟩
      · exact Option.noConfusion h

theorem sizeRoundDuct_pos {cfm t mn mx : ℚ} {e : Bool} {r : DuctSize}
    (h : sizeRoundDuct cfm t mn mx e = some r) : 0 < cfm := by
  by_contra hc
  rw [sizeRoundDuct, if_pos (not_lt.mp hc)] at h
  exact Option.noConfusion h

theorem buildBranch_cfm {bf q : ℚ} {b : BranchPlan}
    (h : buildBranch bf q = some b) : b.cfm = q := by
  unfold buildBranch at h
  split at h
  · exact Option.noConfusion h
  · rw [Option.some.injEq] at h
    subst h
    rfl

theorem splitCFM_count_pos_ne_nil {t : ℚ} (ht : 0 < t) {n : ℤ} (hn : 0 < n) :
    splitCFM t (.count n) ≠ [] := by
  unfold splitCFM
  rw [if_neg (not_le.mpr ht)]
  simp only [rawParts]
  rw [if_pos hn]
  apply fixParts_ne_nil
  simp only [ne_eq, List.map_eq_nil_iff, List.range_eq_nil]
  rw [Int.toNat_eq_zero]
  exact not_le.mpr hn

theorem splitCFM_ratios_ne_nil {t : ℚ} (ht : 0 < t) {rs : List ℚ} (hrs : rs ≠ []) :
    splitCFM t (.ratios rs) ≠ [] := by
  unfold splitCFM
  rw [if_neg (not_le.mpr ht)]
  simp only [rawParts]
  apply fixParts_ne_nil
  simp only [ne_eq, List.map_eq_nil_iff]
  exact hrs

theorem buildSub_spec {tf bf c : ℚ} {sp : SubPlenum}
    (h : buildSub tf bf c = some sp) :
    sp.cfm = c ∧ branchCFMSum sp = c := by
  unfold buildSub at h
  split at h
  · exact Option.noConfusion h
  · rename_i trunk ht
    split at h
    · exact Option.noConfusion h
    · rename_i branches hb
      rw [Option.some.injEq] at h
      subst h
      have hc : 0 < c := sizeRoundDuct_pos ht
      have hbm : branches.map BranchPlan.cfm = splitCFM c (.count 5) :=
        mapMOpt_map_eq _ _ (fun q b hq => buildBranch_cfm hq) _ _ hb
      have hne : splitCFM c (.count 5) ≠ [] :=
        splitCFM_count_pos_ne_nil hc (by norm_num)
      refine ⟨rfl, ?_⟩
      show jsSum (branches.map (·.cfm)) = c
      rw [hbm]
      exact splitCFM_sum hc _ hne

theorem splitCFM_ne_nil {t : ℚ} (ht : 0 < t) (roc : RatiosOrCount)
    (h : nonemptySplit roc = true) : splitCFM t roc ≠ [] := by
  cases roc with
  | ratios rs =>
      apply splitCFM_ratios_ne_nil ht
      simpa [nonemptySplit] using h
  | count n =>
      apply splitCFM_count_pos_ne_nil ht
      simpa [nonemptySplit] using h

theorem jsRound_hundred : ((jsRound (100 : ℚ) : ℤ) : ℚ) = 100 := by
  norm_num [jsRound]

theorem jsRoundHalfSqrtTimesTwo_eval {q : ℚ} {m : ℕ} (h : ⌊q⌋ = (m : ℤ)) :
    jsRoundHalfSqrtTimesTwo q = 2 * ((Nat.sqrt m + 1) / 2) := by
  unfold jsRoundHalfSqrtTimesTwo floorSqrtQ
  rw [h, Int.toNat_natCast]

/-- Claim C6: `sizeRoundDuct(50000, 800, 8, 24, true)` clamps the
back-solved diameter (108 in unclamped) to `maxDia = 24` and reports the
recomputed velocity 15915 FPM — elevated above the 800 FPM target; in
general every returned record satisfies
`fpm = velocity(cfm, areaRound(dia))` for the clamped diameter. -/
theorem sizeRoundDuct_clamp_spec :
    sizeRoundDuct 50000 800 8 24 true =
        some { dia := 24, fpm := some 15915, areaFt2 := 1571/500 } ∧
    (800 : ℤ) < 15915 ∧
    ∀ (cfm targetFPM minDia maxDia : ℚ) (even : Bool) (r : DuctSize),
      sizeRoundDuct cfm targetFPM minDia maxDia even = some r →
      r.fpm = velocity cfm (areaRound r.dia) := by
  refine ⟨?_, by norm_num, ?_⟩
  · have hsqrt : Nat.sqrt 11459 = 107 := (Nat.eq_sqrt.mpr (by norm_num)).symm
    have h1 : jsRoundHalfSqrtTimesTwo ((50000 : ℚ) / 800 * 144 * 4 / PI)
        = 2 * ((Nat.sqrt 11459 + 1) / 2) :=
      jsRoundHalfSqrtTimesTwo_eval (by norm_num [PI])
    simp only [sizeRoundDuct, show ¬((50000 : ℚ) ≤ 0) from by norm_num, if_false, if_true]
    simp only [h1, hsqrt]
    norm_num [velocity, areaRound, PI, toFixed, jsRound, min_def, max_def]
  · intro cfm targetFPM minDia maxDia even r h
    by_cases hc : cfm ≤ 0
    · rw [sizeRoundDuct, if_pos hc] at h
      exact absurd h (by simp)
    · rw [sizeRoundDuct, if_neg hc] at h
      rw [Option.some.injEq] at h
      rw [← h]

/-- Claim C6 witness: the general velocity law applied to the clamped
concrete result. -/
theorem sizeRoundDuct_clamp_spec_witness :
    ({ dia := 24, fpm := some 15915, areaFt2 := 1571/500 } : DuctSize).fpm =
      velocity 50000 (areaRound 24) :=
  sizeRoundDuct_clamp_spec.2.2 50000 800 8 24 true _ sizeRoundDuct_clamp_spec.1

/-- Claim C5: `psigToSaturationTemp` clamps below the R-410A table minimum
(`50 PSIG ↦ 26°F`, the first entry's temperature) and linearly interpolates
between bracketing points (`100 PSIG ↦ 29.5°F` between `(90, 26)` and
`(110, 33)`), rounding to 1 decimal. -/
theorem psigToSaturationTemp_clamp_and_midpoint :
    psigToSaturationTemp 50 "R410A" = 26 ∧ psigToSaturationTemp 100 "R410A" = 29.5 := by
  constructor
  · simp only [psigToSaturationTemp]
    rw [show jsToUpper (if ("R410A" : String) = "" then "R410A" else "R410A") = "R410A"
      from by decide]
    simp only [ptTableFor, if_true]
    simp only [PT_R410A, interpolatePT]
    norm_num [toFixed, jsRound]
  · simp only [psigToSaturationTemp]
    rw [show jsToUpper (if ("R410A" : String) = "" then "R410A" else "R410A") = "R410A"
      from by decide]
    simp only [ptTableFor, if_true]
    simp only [PT_R410A, interpolatePT, scanPT, lerp]
    norm_num [toFixed, jsRound]

/-- Claim C2 counterexample: `generateSubPlenumPlan(100, [])` returns a
plan (not null, not an exception) whose sub-plenum list is empty, so the
sub-plenum CFMs sum to 0, not to the plan total 100. -/
theorem generateSubPlenumPlan_empty_split :
    planSubPlenums (generateSubPlenumPlan 100 (.ratios []) 800 700) = some [] ∧
    planConserves (generateSubPlenumPlan 100 (.ratios []) 800 700) = false := by
  have hsplit : splitCFM ((jsRound (100 : ℚ) : ℤ) : ℚ) (.ratios []) = [] := by
    rw [jsRound_hundred]
    unfold splitCFM
    rw [if_neg (by norm_num)]
    simp only [rawParts, List.map_nil]
    rfl
  unfold generateSubPlenumPlan
  rw [if_neg (by rw [jsRound_hundred]; norm_num), hsplit]
  rw [show mapMOpt (buildSub 800 700) ([] : List ℚ) = some [] from rfl]
  constructor
  · rfl
  · simp only [planConserves, subCFMSum, List.map_nil, jsSum_nil, List.all_nil,
      Bool.and_true, decide_eq_false_iff_not]
    rw [jsRound_hundred]
    norm_num

/-- Claim C2 amended: whenever the `splits` argument yields a nonempty
split (a nonempty ratio list or a positive integer count), every returned
plan conserves CFM: the sub-plenum CFMs sum to the plan's (rounded) total,
and each sub-plenum's branch CFMs sum to that sub-plenum's CFM.  (With an
empty split the returned plan has no sub-plenums and the first sum is 0.) -/
theorem generateSubPlenumPlan_conserves (total trunkFPM branchFPM : ℚ)
    (split : RatiosOrCount) (h : nonemptySplit split = true) :
    planConserves (generateSubPlenumPlan total split trunkFPM branchFPM) = true := by
  unfold generateSubPlenumPlan
  by_cases hc : ((jsRound total : ℤ) : ℚ) ≤ 0
  · rw [if_pos hc]; rfl
  · rw [if_neg hc]
    cases hm : mapMOpt (buildSub trunkFPM branchFPM)
        (splitCFM ((jsRound total : ℤ) : ℚ) split) with
    | none => rfl
    | some subs =>
        have hpos : 0 < ((jsRound total : ℤ) : ℚ) := lt_of_not_le hc
        have hparts : splitCFM ((jsRound total : ℤ) : ℚ) split ≠ [] :=
          splitCFM_ne_nil hpos split h
        have hmap : subs.map SubPlenum.cfm = splitCFM ((jsRound total : ℤ) : ℚ) split :=
          mapMOpt_map_eq _ _ (fun c sp hsp => (buildSub_spec hsp).1) _ _ hm
        simp only [planConserves, Bool.and_eq_true, decide_eq_true_eq, List.all_eq_true]
        constructor
        · show jsSum (subs.map (·.cfm)) = ((jsRound total : ℤ) : ℚ)
          rw [show (subs.map (·.cfm)) = subs.map SubPlenum.cfm from rfl, hmap]
          exact splitCFM_sum hpos split hparts
        · intro sp hsp
          obtain ⟨c, _, hbuild⟩ := mapMOpt_mem _ _ _ hm sp hsp
          have hspec := buildSub_spec hbuild
          rw [hspec.2, hspec.1]

/-- Claim C2 witness: the conservation law applied at
`generateSubPlenumPlan(1000, 2, 800, 700)`. -/
theorem generateSubPlenumPlan_conserves_witness :
    nonemptySplit (.count 2) = true ∧
    planConserves (generateSubPlenumPlan 1000 (.count 2) 800 700) = true :=
  ⟨rfl, generateSubPlenumPlan_conserves 1000 800 700 (.count 2) rfl⟩

/-- Claim C4 counterexample: `generateSubPlenumPlan` can throw.  At
`generateSubPlenumPlan(100, [-1, 3])` the ratio split yields the
sub-plenum CFMs `[-50, 150]`; `sizeRoundDuct(-50, …)` returns null and the
generator dereferences `trunk.dia`, raising a TypeError. -/
theorem generateSubPlenumPlan_throws :
    generateSubPlenumPlan 100 (.ratios [-1, 3]) 800 700 = .thrown := by
  have hsplit : splitCFM ((jsRound (100 : ℚ) : ℤ) : ℚ) (.ratios [-1, 3]) = [-50, 150] := by
    rw [jsRound_hundred]
    unfold splitCFM
    rw [if_neg (by norm_num)]
    have hsum : jsSum [(-1 : ℚ), 3] = 2 := by norm_num [jsSum]
    simp only [rawParts, hsum]
    rw [if_neg (by norm_num)]
    have hmap : List.map (fun r => (↑(jsRound (r / 2 * 100)) : ℚ)) [(-1 : ℚ), 3]
        = [-50, 150] := by
      simp only [List.map_cons, List.map_nil]
      norm_num [jsRound]
    rw [hmap]
    apply fixParts_of_sum
    norm_num [jsSum]
  have hnone : buildSub 800 700 (-50) = none := by
    unfold buildSub
    rw [show sizeRoundDuct (-50) 800 8 24 true = none from by
      rw [sizeRoundDuct, if_pos (by norm_num)]]
  have hm : mapMOpt (buildSub 800 700) [(-50 : ℚ), 150] = none := by
    unfold mapMOpt
    rw [hnone]
  unfold generateSubPlenumPlan
  rw [if_neg (by rw [jsRound_hundred]; norm_num), hsplit, hm]

/-- Claim C4 amended: `generateSubPlenumPlan` returns null whenever
`totalCFM ≤ 0`; however it is not exception-free — when a computed
sub-plenum or branch CFM is not positive, the null result of
`sizeRoundDuct` is dereferenced and the call throws instead of returning
null. -/
theorem generateSubPlenumPlan_null_on_nonpos (total : ℚ) (split : RatiosOrCount)
    (trunkFPM branchFPM : ℚ) (h : total ≤ 0) :
    generateSubPlenumPlan total split trunkFPM branchFPM = .nullResult := by
  have hr : jsRound total ≤ 0 := by
    have h1 : (⌊total + 1/2⌋ : ℤ) ≤ ⌊(0 : ℚ) + 1/2⌋ := Int.floor_le_floor (by linarith)
    have h2 : (⌊(0 : ℚ) + 1/2⌋ : ℤ) = 0 := by norm_num
    unfold jsRound
    omega
  unfold generateSubPlenumPlan
  rw [if_pos (by exact_mod_cast hr)]

/-- Claim C4 witness: the null return at `totalCFM = -1` with the default
ratio split. -/
theorem generateSubPlenumPlan_null_on_nonpos_witness :
    generateSubPlenumPlan (-1) (.ratios [2/5, 7/20, 1/4]) 800 700 = .nullResult :=
  generateSubPlenumPlan_null_on_nonpos (-1) (.ratios [2/5, 7/20, 1/4]) 800 700 (by norm_num)


theorem chain_tempsLE_head_le_getLastD :
    ∀ (l : List (ℚ × ℚ)) (a : ℚ × ℚ), List.Chain' tempsLE (a :: l) →
      a.2 ≤ (l.getLastD a).2 := by
  intro l
  induction l with
  | nil => intro a _; exact le_refl _
  | cons b l ih =>
      intro a h
      rw [List.chain'_cons] at h
      rw [List.getLastD_cons]
      exact le_trans h.1 (ih b h.2)

theorem scanPT_some_le :
    ∀ (l : List (ℚ × ℚ)) (a : ℚ × ℚ) (p v : ℚ), List.Chain' presLT (a :: l) →
      scanPT p (a :: l) = some v → a.1 ≤ p := by
  intro l
  induction l with
  | nil =>
      intro a p v _ h
      simp only [scanPT] at h
      exact Option.noConfusion h
  | cons b l ih =>
      intro a p v hch h
      rw [List.chain'_cons] at hch
      by_cases hc : a.1 ≤ p ∧ p ≤ b.1
      · exact hc.1
      · rw [scanPT, if_neg hc] at h
        exact le_trans (le_of_lt hch.1) (ih b p v hch.2 h)

theorem scanPT_some_head_le :
    ∀ (l : List (ℚ × ℚ)) (a : ℚ × ℚ) (p v : ℚ),
      List.Chain' presLT (a :: l) → List.Chain' tempsLE (a :: l) →
      scanPT p (a :: l) = some v → a.2 ≤ v := by
  intro l
  induction l with
  | nil =>
      intro a p v _ _ h
      simp only [scanPT] at h
      exact Option.noConfusion h
  | cons b l ih =>
      intro a p v hp ht h
      rw [List.chain'_cons] at hp ht
      rw [scanPT] at h
      by_cases hc : a.1 ≤ p ∧ p ≤ b.1
      · rw [if_pos hc, Option.some.injEq] at h
        subst h
        have hd : (0 : ℚ) < b.1 - a.1 := sub_pos.mpr hp.1
        have hn : (0 : ℚ) ≤ p - a.1 := sub_nonneg.mpr hc.1
        have hf : (0 : ℚ) ≤ b.2 - a.2 := sub_nonneg.mpr ht.1
        have hterm : (0 : ℚ) ≤ (p - a.1) / (b.1 - a.1) * (b.2 - a.2) :=
          mul_nonneg (div_nonneg hn hd.le) hf
        unfold lerp
        linarith
      · rw [if_neg hc] at h
        exact le_trans ht.1 (ih b p v hp.2 ht.2 h)

theorem lerp_le_right {a b : ℚ × ℚ} {p : ℚ} (hab : a.1 < b.1) (hf : a.2 ≤ b.2)
    (hpb : p ≤ b.1) : lerp p a b ≤ b.2 := by
  have hd : (0 : ℚ) < b.1 - a.1 := sub_pos.mpr hab
  have hr1 : (p - a.1) / (b.1 - a.1) ≤ 1 := by
    rw [div_le_one hd]; linarith
  have hf' : (0 : ℚ) ≤ b.2 - a.2 := sub_nonneg.mpr hf
  have := mul_le_mul_of_nonneg_right hr1 hf'
  unfold lerp
  linarith

theorem scanPT_some_le_getLastD :
    ∀ (l : List (ℚ × ℚ)) (a : ℚ × ℚ) (p v : ℚ),
      List.Chain' presLT (a :: l) → List.Chain' tempsLE (a :: l) →
      scanPT p (a :: l) = some v → v ≤ (l.getLastD a).2 := by
  intro l
  induction l with
  | nil =>
      intro a p v _ _ h
      simp only [scanPT] at h
      exact Option.noConfusion h
  | cons b l ih =>
      intro a p v hp ht h
      rw [List.chain'_cons] at hp ht
      rw [scanPT] at h
      rw [List.getLastD_cons]
      by_cases hc : a.1 ≤ p ∧ p ≤ b.1
      · rw [if_pos hc, Option.some.injEq] at h
        subst h
        exact le_trans (lerp_le_right hp.1 ht.1 hc.2)
          (chain_tempsLE_head_le_getLastD l b ht.2)
      · rw [if_neg hc] at h
        exact ih b p v hp.2 ht.2 h

theorem scanPT_isSome :
    ∀ (l : List (ℚ × ℚ)) (a : ℚ × ℚ) (p : ℚ), List.Chain' presLT (a :: l) →
      a.1 < p → p < (l.getLastD a).1 → ∃ v, scanPT p (a :: l) = some v := by
  intro l
  induction l with
  | nil =>
      intro a p _ h1 h2
      rw [List.getLastD_nil] at h2
      exact absurd (lt_trans h1 h2) (lt_irrefl _)
  | cons b l ih =>
      intro a p hch h1 h2
      rw [List.chain'_cons] at hch
      rw [List.getLastD_cons] at h2
      by_cases hc : p ≤ b.1
      · exact ⟨lerp p a b, by rw [scanPT, if_pos ⟨h1.le, hc⟩]⟩
      · obtain ⟨v, hv⟩ := ih b p hch.2 (not_le.mp hc) h2
        exact ⟨v, by rw [scanPT, if_neg (fun hq => hc hq.2)]; exact hv⟩

theorem scanPT_mono :
    ∀ (l : List (ℚ × ℚ)) (a : ℚ × ℚ) (p q v w : ℚ),
      List.Chain' presLT (a :: l) → List.Chain' tempsLE (a :: l) →
      p ≤ q → scanPT p (a :: l) = some v → scanPT q (a :: l) = some w → v ≤ w := by
  intro l
  induction l with
  | nil =>
      intro a p q v w _ _ _ h _
      simp only [scanPT] at h
      exact Option.noConfusion h
  | cons b l ih =>
      intro a p q v w hpch htch hpq hp hq
      rw [List.chain'_cons] at hpch htch
      rw [scanPT] at hp hq
      by_cases hcp : a.1 ≤ p ∧ p ≤ b.1
      · rw [if_pos hcp, Option.some.injEq] at hp
        subst hp
        by_cases hcq : a.1 ≤ q ∧ q ≤ b.1
        · rw [if_pos hcq, Option.some.injEq] at hq
          subst hq
          have hd : (0 : ℚ) < b.1 - a.1 := sub_pos.mpr hpch.1
          have hf : (0 : ℚ) ≤ b.2 - a.2 := sub_nonneg.mpr htch.1
          have hdiv : (p - a.1) / (b.1 - a.1) ≤ (q - a.1) / (b.1 - a.1) :=
            div_le_div_of_nonneg_right (by linarith) hd.le
          have := mul_le_mul_of_nonneg_right hdiv hf
          unfold lerp
          linarith
        · rw [if_neg hcq] at hq
          exact le_trans (lerp_le_right hpch.1 htch.1 hcp.2)
            (scanPT_some_head_le l b q w hpch.2 htch.2 hq)
      · rw [if_neg hcp] at hp
        by_cases hcq : a.1 ≤ q ∧ q ≤ b.1
        · have hbp : b.1 ≤ p := scanPT_some_le l b p v hpch.2 hp
          exact absurd ⟨le_trans hpch.1.le hbp, le_trans hpq hcq.2⟩ hcp
        · rw [if_neg hcq] at hq
          exact ih b p q v w hpch.2 htch.2 hpq hp hq

theorem interpolatePT_mono (t : List (ℚ × ℚ))
    (hpc : List.Chain' presLT t) (htc : List.Chain' tempsLE t)
    {p q : ℚ} (hpq : p ≤ q) : interpolatePT p t ≤ interpolatePT q t := by
  match t with
  | [] => exact le_refl _
  | a :: rest =>
      simp only [interpolatePT]
      split_ifs
      · exact le_refl _
      · exact chain_tempsLE_head_le_getLastD rest a htc
      · rename_i h1 h2 h3
        obtain ⟨w, hw⟩ := scanPT_isSome rest a q hpc (not_le.mp h2) (not_le.mp h3)
        rw [hw, Option.getD_some]
        exact scanPT_some_head_le rest a q w hpc htc hw
      · rename_i h1 h2 h3
        exact absurd (le_trans hpq h3) h1
      · exact le_refl _
      · rename_i h1 h2 h3 h4
        exact absurd (le_trans h2 hpq) h4
      · rename_i h1 h2 h3
        exact absurd (le_trans hpq h3) h1
      · rename_i h1 h2 h3 h4
        obtain ⟨v, hv⟩ := scanPT_isSome rest a p hpc (not_le.mp h1) (not_le.mp h2)
        rw [hv, Option.getD_some]
        exact scanPT_some_le_getLastD rest a p v hpc htc hv
      · rename_i h1 h2 h3 h4
        obtain ⟨v, hv⟩ := scanPT_isSome rest a p hpc (not_le.mp h1) (not_le.mp h2)
        obtain ⟨w, hw⟩ := scanPT_isSome rest a q hpc
          (lt_of_lt_of_le (not_le.mp h1) hpq) (not_le.mp h4)
        rw [hv, hw, Option.getD_some, Option.getD_some]
        exact scanPT_mono rest a p q v w hpc htc hpq hv hw

theorem PT_R410A_chains : List.Chain' presLT PT_R410A ∧ List.Chain' tempsLE PT_R410A := by
  constructor <;>
    norm_num [PT_R410A, List.chain'_cons, List.chain'_singleton, presLT, tempsLE]

theorem PT_R22_chains : List.Chain' presLT PT_R22 ∧ List.Chain' tempsLE PT_R22 := by
  constructor <;>
    norm_num [PT_R22, List.chain'_cons, List.chain'_singleton, presLT, tempsLE]

theorem PT_R454B_chains : List.Chain' presLT PT_R454B ∧ List.Chain' tempsLE PT_R454B := by
  constructor <;>
    norm_num [PT_R454B, List.chain'_cons, List.chain'_singleton, presLT, tempsLE]

theorem PT_R32_chains : List.Chain' presLT PT_R32 ∧ List.Chain' tempsLE PT_R32 := by
  constructor <;>
    norm_num [PT_R32, List.chain'_cons, List.chain'_singleton, presLT, tempsLE]

theorem ptTableFor_chains (s : String) :
    List.Chain' presLT (ptTableFor s) ∧ List.Chain' tempsLE (ptTableFor s) := by
  unfold ptTableFor
  split_ifs
  · exact PT_R410A_chains
  · exact PT_R22_chains
  · exact PT_R454B_chains
  · exact PT_R32_chains
  · exact PT_R410A_chains

/-- Claim C10: for every refrigerant code and all pressures `p ≤ q`,
`psigToSaturationTemp(p, r) ≤ psigToSaturationTemp(q, r)`: every built-in
PT table ascends in both pressure and temperature, the lookup clamps at the
endpoints and linearly interpolates between adjacent points, and the
1-decimal rounding preserves order. -/
theorem psigToSaturationTemp_mono (refrigerant : String) (p q : ℚ) (hpq : p ≤ q) :
    psigToSaturationTemp p refrigerant ≤ psigToSaturationTemp q refrigerant := by
  unfold psigToSaturationTemp
  apply toFixed_le_toFixed
  have hch := ptTableFor_chains (jsToUpper (if refrigerant = "" then "R410A" else refrigerant))
  exact interpolatePT_mono _ hch.1 hch.2 hpq

/-- Claim C10 witness: monotonicity applied at 100 and 120 PSIG on the
R-410A table. -/
theorem psigToSaturationTemp_mono_witness :
    psigToSaturationTemp 100 "R410A" ≤ psigToSaturationTemp 120 "R410A" :=
  psigToSaturationTemp_mono "R410A" 100 120 (by norm_num)

end FieldBuddy
